import Mathlib
/-!
Shallow embedding of the simulation engine of `lulu_pcol_sim` (`sim.py`):
P colony data model, per-step program selection (`Agent.choseProgram`),
program execution (`Agent.executeProgram`), the colony step
(`Pcolony.runSimulationStep`), the driver loop (`Pcolony.simulate`) and the
wildcard expansion helpers.  Multisets (`collections.Counter` with
zero-count pruning) are modelled as `Multiset String`: membership in a
`Counter` is equivalent to `count ≥ 1`, which is exactly `Multiset`
membership.
-/

/-- Mirrors `RuleType` from sim.py. -/
inductive RuleType where
  | evolution
  | communication
  | conditional
  | exteroceptive
  | in_exteroceptive
  | out_exteroceptive
deriving DecidableEq

/-- Mirrors `RuleExecOption` from sim.py. -/
inductive RuleExecOption where
  | none
  | first
  | second
deriving DecidableEq

/-- Mirrors `SimStepResult` from sim.py. -/
inductive SimStepResult where
  | finished
  | no_more_executables
  | error
deriving DecidableEq

/-- Mirrors class `Rule` from sim.py.  `exec_rule_nr` is not stored here: the
per-step execution choices are recorded by selection in `Agent.chosen`
(see below), which is how the mutable `exec_rule_nr` annotations of the
chosen program are communicated to `executeProgram`. -/
structure Rule where
  main_type : RuleType
  type : RuleType
  lhs : String
  rhs : String
  alt_type : RuleType
  alt_lhs : String
  alt_rhs : String
deriving DecidableEq

/-- Mirrors class `Agent` from sim.py.  `chosen = some (i, cs)` plays the
role of `chosenProgramNr = i` together with the `exec_rule_nr` markings
`cs` that `choseProgram` left on the rules of program `i`; `chosen = none`
is `chosenProgramNr = -1`. -/
structure Agent where
  obj : Multiset String
  programs : List (List Rule)
  chosen : Option (Nat × List RuleExecOption)
deriving DecidableEq

/-- Mirrors class `Pcolony` from sim.py, with the three environments of the
parent `Pswarm` inlined (`genv`/`ienv`/`oenv` are
`parentSwarm.global_env` / `in_global_env` / `out_global_env`). -/
structure Colony where
  e : String
  n : Nat
  env : Multiset String
  agents : List Agent
  genv : Multiset String
  ienv : Multiset String
  oenv : Multiset String
deriving DecidableEq

/-- The read-only environments consulted during program selection. -/
structure SelEnv where
  env : Multiset String
  genv : Multiset String
  ienv : Multiset String
  oenv : Multiset String
deriving DecidableEq

/-- The condition under which the first branch of a conditional rule is
skipped in `choseProgram` (sim.py lines 546-549): the branch is a
communication-like rule whose right-hand side is missing from its
environment. -/
def primCondFails (se : SelEnv) (r : Rule) : Prop :=
  (r.type = RuleType.communication ∧ r.rhs ∉ se.env) ∨
  (r.type = RuleType.exteroceptive ∧ r.rhs ∉ se.genv) ∨
  (r.type = RuleType.in_exteroceptive ∧ r.rhs ∉ se.ienv) ∨
  (r.type = RuleType.out_exteroceptive ∧ r.rhs ∉ se.oenv)

instance (se : SelEnv) (r : Rule) : Decidable (primCondFails se r) := by
  unfold primCondFails; infer_instance

/-- The environment conditions checked for the second branch of a
conditional rule (sim.py lines 553-570): none of the four
communication-like checks fails. -/
def altCondHolds (se : SelEnv) (r : Rule) : Prop :=
  ¬(r.alt_type = RuleType.communication ∧ r.alt_rhs ∉ se.env) ∧
  ¬(r.alt_type = RuleType.exteroceptive ∧ r.alt_rhs ∉ se.genv) ∧
  ¬(r.alt_type = RuleType.in_exteroceptive ∧ r.alt_rhs ∉ se.ienv) ∧
  ¬(r.alt_type = RuleType.out_exteroceptive ∧ r.alt_rhs ∉ se.oenv)

instance (se : SelEnv) (r : Rule) : Decidable (altCondHolds se r) := by
  unfold altCondHolds; infer_instance

/-- Per-rule applicability test of `Agent.choseProgram` (sim.py lines
488-608), returning the `exec_rule_nr` marking left on the rule, or `none`
when the rule makes the program inapplicable. -/
def ruleChoice (se : SelEnv) (obj : Multiset String) (r : Rule) :
    Option RuleExecOption :=
  if r.main_type ≠ RuleType.conditional then
    if r.lhs ∉ obj then Option.none
    else if r.main_type = RuleType.communication ∧ r.rhs ∉ se.env then Option.none
    else if r.main_type = RuleType.exteroceptive ∧ r.rhs ∉ se.genv then Option.none
    else if r.main_type = RuleType.in_exteroceptive ∧ r.rhs ∉ se.ienv then Option.none
    else if r.main_type = RuleType.out_exteroceptive ∧ r.rhs ∉ se.oenv then Option.none
    else some RuleExecOption.first
  else
    if r.lhs ∉ obj ∧ r.alt_lhs ∉ obj then Option.none
    else if primCondFails se r then
      if ¬ altCondHolds se r then Option.none
      else some RuleExecOption.second
    else some RuleExecOption.first

/-- The demand counters accumulated by `choseProgram` over the rules of one
program: `required_obj`, `required_env`, `required_global_env`,
`required_in_global_env`, `required_out_global_env` (sim.py lines 481-485). -/
structure Req where
  robj : Multiset String
  renv : Multiset String
  rgenv : Multiset String
  rienv : Multiset String
  roenv : Multiset String
deriving DecidableEq

def emptyReq : Req := ⟨0, 0, 0, 0, 0⟩

/-- Add one demanded `rhs` object to the demand counter selected by the
branch kind (sim.py lines 523-533, 579-589, 598-608). -/
def kindReq (k : RuleType) (x : String) (q : Req) : Req :=
  match k with
  | RuleType.communication => { q with renv := x ::ₘ q.renv }
  | RuleType.exteroceptive => { q with rgenv := x ::ₘ q.rgenv }
  | RuleType.in_exteroceptive => { q with rienv := x ::ₘ q.rienv }
  | RuleType.out_exteroceptive => { q with roenv := x ::ₘ q.roenv }
  | _ => q

/-- The demands one rule adds, given the branch marked for it by
`ruleChoice`.  Non-conditional rules key their demand on `main_type`
(sim.py line 523), the first branch of a conditional on `type`
(line 598) and the second branch on `alt_type` (line 579). -/
def ruleReq (r : Rule) (c : RuleExecOption) (q : Req) : Req :=
  match c with
  | RuleExecOption.second =>
      kindReq r.alt_type r.alt_rhs { q with robj := r.alt_lhs ::ₘ q.robj }
  | RuleExecOption.first =>
      if r.main_type ≠ RuleType.conditional then
        kindReq r.main_type r.rhs { q with robj := r.lhs ::ₘ q.robj }
      else
        kindReq r.type r.rhs { q with robj := r.lhs ::ₘ q.robj }
  | RuleExecOption.none => q

/-- Fold `ruleReq` over a program annotated with its per-rule choices. -/
def progReq (l : List (Rule × RuleExecOption)) : Req :=
  l.foldl (fun q rc => ruleReq rc.1 rc.2 q) emptyReq

/-- The per-bucket availability loop of `choseProgram`
(`for k, v in required.items(): if avail[k] < v: fail`). -/
def counterFits (required avail : Multiset String) : Prop :=
  ∀ x ∈ required, required.count x ≤ avail.count x

instance (required avail : Multiset String) :
    Decidable (counterFits required avail) :=
  Multiset.decidableForallMultiset

/-- `del required['e']`: the aggregate environment checks drop the demands
for the literal key `'e'` (sim.py lines 621-623 and the three analogous
blocks). -/
def dropE (m : Multiset String) : Multiset String :=
  m.filter (fun x => x ≠ "e")

/-- The aggregate feasibility check of `choseProgram` (sim.py lines
613-658): agent demands against `obj` (no exclusion), environment demands
with the literal `'e'` bucket deleted first. -/
def reqSatisfied (se : SelEnv) (obj : Multiset String) (q : Req) : Prop :=
  counterFits q.robj obj ∧
  counterFits (dropE q.renv) se.env ∧
  counterFits (dropE q.rgenv) se.genv ∧
  counterFits (dropE q.rienv) se.ienv ∧
  counterFits (dropE q.roenv) se.oenv

instance (se : SelEnv) (obj : Multiset String) (q : Req) :
    Decidable (reqSatisfied se obj q) := by
  unfold reqSatisfied; infer_instance

/-- Run `ruleChoice` across all rules of a program, failing as soon as one
rule is inapplicable (the `break` in sim.py). -/
def progChoices (se : SelEnv) (obj : Multiset String) :
    List Rule → Option (List RuleExecOption)
  | [] => some []
  | r :: rs =>
    match ruleChoice se obj r with
    | Option.none => Option.none
    | some c =>
      match progChoices se obj rs with
      | Option.none => Option.none
      | some cs => some (c :: cs)

/-- Whole-program applicability: every rule individually applicable and the
aggregate demand check satisfied; returns the recorded branch choices. -/
def programExecutable (se : SelEnv) (obj : Multiset String)
    (prog : List Rule) : Option (List RuleExecOption) :=
  match progChoices se obj prog with
  | Option.none => Option.none
  | some cs =>
    if reqSatisfied se obj (progReq (prog.zip cs)) then some cs
    else Option.none

/-- `possiblePrograms`: the indices (with recorded choices) of the
executable programs of one agent, in declaration order. -/
def possiblePrograms (se : SelEnv) (a : Agent) :
    List (Nat × List RuleExecOption) :=
  a.programs.enum.filterMap fun p =>
    (programExecutable se a.obj p.2).map fun cs => (p.1, cs)

/-- `Agent.choseProgram` (sim.py lines 470-683): stochastic selection over
the executable programs.  The process-wide RNG is modelled by the stream
`rng` and a position `pos`; `random.randint(0, len-1)` at position `pos`
is `rng pos % len`, and is consumed only when more than one program is
executable. -/
def choseProgram (se : SelEnv) (rng : Nat → Nat) (pos : Nat) (a : Agent) :
    Agent × Nat :=
  match possiblePrograms se a with
  | [] => ({ a with chosen := Option.none }, pos)
  | [x] => ({ a with chosen := some x }, pos)
  | x :: y :: rest =>
    let pp := x :: y :: rest
    ({ a with chosen := some (pp.getD (rng pos % pp.length) (0, [])) }, pos + 1)

/-- End of the data model and selection definitions; sanity examples and the
execution phase follow. -/
def selEnvOf (c : Colony) : SelEnv := ⟨c.env, c.genv, c.ienv, c.oenv⟩

/-- The mutable state threaded through `Agent.executeProgram`: the executing
agent's `obj` together with the colony and swarm environments. -/
structure ESt where
  obj : Multiset String
  env : Multiset String
  genv : Multiset String
  ienv : Multiset String
  oenv : Multiset String
deriving DecidableEq

/-- The body of a successful communication-like exchange in
`executeProgram` (sim.py lines 724-740 and analogues): decrement `rhs` in
the target environment unless it is the colony's `e`, put `lhs` into the
target environment unless it is `e`, and put `rhs` into the agent.  The
agent's `lhs` has already been removed by the caller. -/
def commExchange (e lhs rhs : String) (obj target : Multiset String) :
    Multiset String × Multiset String :=
  let target := if rhs ≠ e then target.erase rhs else target
  let target := if lhs ≠ e then lhs ::ₘ target else target
  (rhs ::ₘ obj, target)

/-- One rule of `Agent.executeProgram` (sim.py lines 693-951), using the
branch recorded at selection time.  Returns `(false, s)` on an execution
fault, with `s` the state as already mutated (the code `return False`s
without undoing anything). -/
def execRule (e : String) (r : Rule) (c : RuleExecOption) (s : ESt) :
    Bool × ESt :=
  match c with
  | RuleExecOption.first =>
    if s.obj.count r.lhs ≤ 0 then (false, s)
    else
      let s1 : ESt := { s with obj := s.obj.erase r.lhs }
      match r.type with
      | RuleType.evolution => (true, { s1 with obj := r.rhs ::ₘ s1.obj })
      | RuleType.communication =>
        if s1.env.count r.rhs ≤ 0 then (false, s1)
        else
          let p := commExchange e r.lhs r.rhs s1.obj s1.env
          (true, { s1 with obj := p.1, env := p.2 })
      | RuleType.exteroceptive =>
        if s1.genv.count r.rhs ≤ 0 then (false, s1)
        else
          let p := commExchange e r.lhs r.rhs s1.obj s1.genv
          (true, { s1 with obj := p.1, genv := p.2 })
      | RuleType.in_exteroceptive =>
        if s1.ienv.count r.rhs ≤ 0 then (false, s1)
        else
          let p := commExchange e r.lhs r.rhs s1.obj s1.ienv
          (true, { s1 with obj := p.1, ienv := p.2 })
      | RuleType.out_exteroceptive =>
        if s1.oenv.count r.rhs ≤ 0 then (false, s1)
        else
          let p := commExchange e r.lhs r.rhs s1.obj s1.oenv
          (true, { s1 with obj := p.1, oenv := p.2 })
      | RuleType.conditional => (true, s1)
  | RuleExecOption.second =>
    if s.obj.count r.alt_lhs ≤ 0 then (false, s)
    else
      let s1 : ESt := { s with obj := s.obj.erase r.alt_lhs }
      match r.alt_type with
      | RuleType.evolution => (true, { s1 with obj := r.alt_rhs ::ₘ s1.obj })
      | RuleType.communication =>
        if s1.env.count r.alt_rhs ≤ 0 then (false, s1)
        else
          let p := commExchange e r.alt_lhs r.alt_rhs s1.obj s1.env
          (true, { s1 with obj := p.1, env := p.2 })
      | RuleType.exteroceptive =>
        if s1.genv.count r.alt_rhs ≤ 0 then (false, s1)
        else
          let p := commExchange e r.alt_lhs r.alt_rhs s1.obj s1.genv
          (true, { s1 with obj := p.1, genv := p.2 })
      | RuleType.in_exteroceptive =>
        if s1.ienv.count r.alt_rhs ≤ 0 then (false, s1)
        else
          let p := commExchange e r.alt_lhs r.alt_rhs s1.obj s1.ienv
          (true, { s1 with obj := p.1, ienv := p.2 })
      | RuleType.out_exteroceptive =>
        if s1.oenv.count r.alt_rhs ≤ 0 then (false, s1)
        else
          let p := commExchange e r.alt_lhs r.alt_rhs s1.obj s1.oenv
          (true, { s1 with obj := p.1, oenv := p.2 })
      | RuleType.conditional => (true, s1)
  | RuleExecOption.none => (true, s)

/-- The rule loop of `executeProgram`: stop (returning `false` and the
state mutated so far) at the first failing rule. -/
def execRules (e : String) (s : ESt) :
    List (Rule × RuleExecOption) → Bool × ESt
  | [] => (true, s)
  | rc :: rest =>
    match execRule e rc.1 rc.2 s with
    | (false, s1) => (false, s1)
    | (true, s1) => execRules e s1 rest

/-- `Agent.executeProgram` (sim.py lines 685-954): runs the chosen program
of the agent over the given environments; fails immediately when no
program was chosen (`chosenProgramNr < 0`). -/
def executeProgram (e : String) (a : Agent)
    (env genv ienv oenv : Multiset String) : Bool × ESt :=
  match a.chosen with
  | Option.none => (false, ⟨a.obj, env, genv, ienv, oenv⟩)
  | some ic =>
    execRules e ⟨a.obj, env, genv, ienv, oenv⟩
      ((a.programs.getD ic.1 []).zip ic.2)

/-- Result of the execution phase of one colony step. -/
structure ExecOut where
  ok : Bool
  agents : List Agent
  env : Multiset String
  genv : Multiset String
  ienv : Multiset String
  oenv : Multiset String
deriving DecidableEq

/-- The execution phase of `Pcolony.runSimulationStep` (sim.py lines
329-334): each runnable agent executes in declaration order against the
shared environments; the first failure aborts with the partially mutated
state. -/
def execAgents (e : String) :
    List Agent → Multiset String → Multiset String → Multiset String →
    Multiset String → ExecOut
  | [], env, genv, ienv, oenv => ⟨true, [], env, genv, ienv, oenv⟩
  | a :: rest, env, genv, ienv, oenv =>
    match a.chosen with
    | Option.none =>
      let out := execAgents e rest env genv ienv oenv
      { out with agents := a :: out.agents }
    | some _ =>
      let r := executeProgram e a env genv ienv oenv
      if r.1 then
        let out := execAgents e rest r.2.env r.2.genv r.2.ienv r.2.oenv
        { out with agents := { a with obj := r.2.obj } :: out.agents }
      else
        ⟨false, { a with obj := r.2.obj } :: rest,
         r.2.env, r.2.genv, r.2.ienv, r.2.oenv⟩

/-- The selection phase of `runSimulationStep` (sim.py lines 316-321):
every agent runs `choseProgram`, threading the process-wide RNG. -/
def selectAgents (se : SelEnv) (rng : Nat → Nat) :
    List Agent → Nat → List Agent × Nat
  | [], pos => ([], pos)
  | a :: rest, pos =>
    let ap := choseProgram se rng pos a
    let rp := selectAgents se rng rest ap.2
    (ap.1 :: rp.1, rp.2)

/-- `Pcolony.runSimulationStep` (sim.py lines 309-338): select a program
for every agent; if no agent is runnable return `no_more_executables`
without touching anything else; otherwise execute the runnable agents in
order, returning `error` on the first failed execution. -/
def runSimulationStep (rng : Nat → Nat) (pos : Nat) (c : Colony) :
    SimStepResult × Colony × Nat :=
  let sp := selectAgents (selEnvOf c) rng c.agents pos
  if sp.1.all fun a => a.chosen.isNone then
    (SimStepResult.no_more_executables, { c with agents := sp.1 }, sp.2)
  else
    let out := execAgents c.e sp.1 c.env c.genv c.ienv c.oenv
    if out.ok then
      (SimStepResult.finished,
       { c with agents := out.agents, env := out.env, genv := out.genv,
                ienv := out.ienv, oenv := out.oenv }, sp.2)
    else
      (SimStepResult.error,
       { c with agents := out.agents, env := out.env, genv := out.genv,
                ienv := out.ienv, oenv := out.oenv }, sp.2)

/-- `Pcolony.simulate` (sim.py lines 340-392) with the step results
abstracted as the stream `step` (the state mutated by `runSimulationStep`
is irrelevant to the driver's control flow) and the wall-clock limit
disabled (`maxTime = -1`, its default).  `fuel` bounds the recursion; the
returned pair is the driver's boolean result together with the number of
`runSimulationStep` calls made (the loop counter `currentStep` of the
final iteration, plus one). -/
def simulateAux (step : Nat → SimStepResult) (maxSteps : Int) :
    Nat → Nat → Option (Bool × Nat)
  | 0, _ => Option.none
  | fuel + 1, currentStep =>
    let r := step currentStep
    if r = SimStepResult.no_more_executables then some (true, currentStep + 1)
    else if r = SimStepResult.error then some (false, currentStep + 1)
    else if (currentStep : Int) ≥ maxSteps ∧ maxSteps > 0 then
      some (false, currentStep + 1)
    else simulateAux step maxSteps fuel (currentStep + 1)

/-- Does this character list start with the pattern? -/
def charsHasPrefix : List Char → List Char → Bool
  | _, [] => true
  | [], _ :: _ => false
  | c :: cs, p :: ps => c = p && charsHasPrefix cs ps

/-- Python's `pat in s` on character lists. -/
def charsContainsSub : List Char → List Char → Bool
  | [], pat => pat.isEmpty
  | c :: cs, pat => charsHasPrefix (c :: cs) pat || charsContainsSub cs pat

/-- Python's left-to-right, non-overlapping `str.replace`, on character
lists; `fuel` bounds the recursion and is instantiated with the string
length, which suffices since every step consumes at least one character. -/
def charsReplaceAux (pat rep : List Char) : Nat → List Char → List Char
  | 0, l => l
  | _ + 1, [] => []
  | fuel + 1, c :: cs =>
    if charsHasPrefix (c :: cs) pat then
      rep ++ charsReplaceAux pat rep fuel (List.drop pat.length (c :: cs))
    else c :: charsReplaceAux pat rep fuel cs

/-- Substring test used for the wildcard scans (`'*' in item`,
`'%id' in item`). -/
def containsSub (s pat : String) : Bool :=
  charsContainsSub s.data pat.data

/-- `item.replace(pat, rep)` for the nonempty patterns `"*"` and `"%id"`. -/
def strReplace (s pat rep : String) : String :=
  ⟨charsReplaceAux pat.data rep.data s.data.length s.data⟩

/-- `newCounter[key] = value`: Python dict assignment on an insertion-ordered
counter, modelled on an association list with unique keys. -/
def counterSet (m : List (String × Nat)) (k : String) (v : Nat) :
    List (String × Nat) :=
  if m.any fun p => p.1 = k then
    m.map fun p => if p.1 = k then (k, v) else p
  else m ++ [(k, v)]

/-- The body of the loop of `processObjectCounterWildcards` (sim.py lines
1150-1159) for one key `item` with count `cnt`: an `if` for `*`, then an
`if`/`else` for `%id` — so an item containing `*` but not `%id` falls into
the `else` and is stored back unchanged. -/
def counterWildcardStep (suffixList : List String) (myId : String)
    (acc : List (String × Nat)) (item : String) (cnt : Nat) :
    List (String × Nat) :=
  let acc :=
    if containsSub item "*" then
      suffixList.foldl (fun a suffix =>
        counterSet a (strReplace item "*" suffix) cnt) acc
    else acc
  if containsSub item "%id" then counterSet acc (strReplace item "%id" myId) cnt
  else counterSet acc item cnt

/-- `processObjectCounterWildcards` (sim.py lines 1137-1162): rebuild the
counter, expanding `*` items over `suffixList` and substituting `%id`. -/
def processObjectCounterWildcards (objectCounter : List (String × Nat))
    (suffixList : List String) (myId : String) : List (String × Nat) :=
  objectCounter.foldl
    (fun acc p => counterWildcardStep suffixList myId acc p.1 p.2) []

/-- One driver iteration at the state level: `runSimulationStep` applied to
a colony and the RNG position, keeping the same RNG stream. -/
def stepState (rng : Nat → Nat) (p : Colony × Nat) : Colony × Nat :=
  ((runSimulationStep rng p.2 p.1).2.1, (runSimulationStep rng p.2 p.1).2.2)

/-- A step-by-step run of the engine: `t k` is the colony state and RNG
position after `k` simulation steps from `start`, under the RNG stream
`rng` (the seed fixes the stream). -/
def IsTrajectory (rng : Nat → Nat) (start : Colony × Nat)
    (t : Nat → Colony × Nat) : Prop :=
  t 0 = start ∧ ∀ k, t (k + 1) = stepState rng (t k)

/-- The canonical trajectory from a start state, used to exhibit that
trajectories exist. -/
def trajFrom (rng : Nat → Nat) (start : Colony × Nat) : Nat → Colony × Nat
  | 0 => start
  | k + 1 => stepState rng (trajFrom rng start k)

/-- The communication rule `a <-> b` of scenario E2. -/
def e2Rule : Rule :=
  ⟨RuleType.communication, RuleType.communication, "a", "b",
   RuleType.evolution, "", ""⟩

/-- The single agent of scenario E2: obj `{a}`, program `< a <-> b >`. -/
def e2Agent : Agent := ⟨{"a"}, [[e2Rule]], Option.none⟩

/-- Scenario E2 from the spec: n = 1, env `(b, b, e)`, one agent. -/
def e2Colony : Colony :=
  ⟨"e", 1, {"b", "b", "e"}, [e2Agent], {"e"}, {"e"}, {"e"}⟩

/-- A constant RNG stream, for concrete runs in which the draw is never
consulted. -/
def rng0 : Nat → Nat := fun _ => 0

/-- A colony whose only agent has no programs: no step can select anything. -/
def vacColony : Colony :=
  ⟨"e", 1, {"x", "e"}, [⟨{"a"}, [], Option.none⟩], {"e"}, {"e"}, {"e"}⟩

/-- Well-formed rule: both branch kinds are non-conditional, as the parser
produces them (sim.py lines 1380-1412 only ever assign the five
non-conditional kinds to `type` / `alt_type`). -/
def WfRule (r : Rule) : Prop :=
  r.type ≠ RuleType.conditional ∧ r.alt_type ≠ RuleType.conditional

/-- Well-formed colony: every rule of every program is well formed. -/
def WfColony (c : Colony) : Prop :=
  ∀ a ∈ c.agents, ∀ p ∈ a.programs, ∀ r ∈ p, WfRule r

instance (r : Rule) : Decidable (WfRule r) := by
  unfold WfRule; infer_instance

instance (c : Colony) : Decidable (WfColony c) := by
  unfold WfColony; infer_instance

/-- Scenario E1 from the spec: n = 1, env `(e)`, one agent with obj `{a}`
and program `< a -> b >`. -/
def e1Colony : Colony :=
  ⟨"e", 1, {"e"},
   [⟨{"a"},
     [[⟨RuleType.evolution, RuleType.evolution, "a", "b",
        RuleType.evolution, "", ""⟩]], Option.none⟩],
   {"e"}, {"e"}, {"e"}⟩

/-- The left-hand side of the branch a rule was marked to execute. -/
def chosenLhs (r : Rule) (c : RuleExecOption) : String :=
  match c with
  | RuleExecOption.second => r.alt_lhs
  | _ => r.lhs

/-- A conditional rule `(a <-> b) / (a -> c)` as in scenario E3. -/
def e3Rule : Rule :=
  ⟨RuleType.conditional, RuleType.communication, "a", "b",
   RuleType.evolution, "a", "c"⟩

/-- The communication rule `a <-> x` used for the C5 counterexample. -/
def xCommRule1 : Rule :=
  ⟨RuleType.communication, RuleType.communication, "a", "x",
   RuleType.evolution, "", ""⟩

/-- The communication rule `b <-> x` used for the C5 counterexample. -/
def xCommRule2 : Rule :=
  ⟨RuleType.communication, RuleType.communication, "b", "x",
   RuleType.evolution, "", ""⟩

/-- The evolution rule `a -> b` used for the C10 witness. -/
def evolAB : Rule :=
  ⟨RuleType.evolution, RuleType.evolution, "a", "b",
   RuleType.evolution, "", ""⟩

/-- The evolution rule `z -> w` used for the C10 witness; its lhs is
absent from the witness agent, so it faults at commit time. -/
def evolZW : Rule :=
  ⟨RuleType.evolution, RuleType.evolution, "z", "w",
   RuleType.evolution, "", ""⟩

/-- The agent/environment state used for the C10 witness. -/
def c10St : ESt := ⟨{"a"}, {"e"}, {"e"}, {"e"}, {"e"}⟩

/-- The kind of the branch a rule was marked to execute. -/
def branchKind (r : Rule) (c : RuleExecOption) : RuleType :=
  match c with
  | RuleExecOption.second => r.alt_type
  | _ => r.type

/-- The right-hand side of the branch a rule was marked to execute. -/
def branchRhs (r : Rule) (c : RuleExecOption) : String :=
  match c with
  | RuleExecOption.second => r.alt_rhs
  | _ => r.rhs

/-- The four communication-like rule kinds. -/
def commLike (k : RuleType) : Prop :=
  k = RuleType.communication ∨ k = RuleType.exteroceptive ∨
  k = RuleType.in_exteroceptive ∨ k = RuleType.out_exteroceptive

/-- The environment targeted by a communication-like rule kind. -/
def targetEnv (k : RuleType) (s : ESt) : Multiset String :=
  match k with
  | RuleType.exteroceptive => s.genv
  | RuleType.in_exteroceptive => s.ienv
  | RuleType.out_exteroceptive => s.oenv
  | _ => s.env

/-- The colony of scenario E2 after one simulation step, as the code
computes it: the agent swapped its `a` for a `b`, and the environment both
lost one `b` and gained the communicated `a`. -/
def e2After : Colony :=
  ⟨"e", 1, {"a", "b", "e"},
   [⟨{"b"}, [[e2Rule]], some (0, [RuleExecOption.first])⟩],
   {"e"}, {"e"}, {"e"}⟩

/-- State of the E2 exchange before the rule fires. -/
def e2St : ESt := ⟨{"a"}, {"b", "b", "e"}, {"e"}, {"e"}, {"e"}⟩

/-- State of the E2 exchange after the rule fires. -/
def e2StAfter : ESt := ⟨{"b"}, {"a", "b", "e"}, {"e"}, {"e"}, {"e"}⟩

example :
    ruleChoice ⟨{"e"}, {"e"}, {"e"}, {"e"}⟩ {"a"}
      ⟨RuleType.evolution, RuleType.evolution, "a", "b",
       RuleType.evolution, "", ""⟩ = some RuleExecOption.first := by
  decide

example :
    programExecutable ⟨{"e"}, {"e"}, {"e"}, {"e"}⟩ {"a"}
      [⟨RuleType.communication, RuleType.communication, "a", "b",
        RuleType.evolution, "", ""⟩] = Option.none := by
  decide

example :
    programExecutable ⟨{"b", "e"}, {"e"}, {"e"}, {"e"}⟩ {"a"}
      [⟨RuleType.communication, RuleType.communication, "a", "b",
        RuleType.evolution, "", ""⟩] = some [RuleExecOption.first] := by
  decide

example :
    execRule "e"
      ⟨RuleType.communication, RuleType.communication, "a", "b",
       RuleType.evolution, "", ""⟩ RuleExecOption.first
      ⟨{"a"}, {"b", "b", "e"}, {"e"}, {"e"}, {"e"}⟩ =
    (true, ⟨{"b"}, {"a", "b", "e"}, {"e"}, {"e"}, {"e"}⟩) := by
  decide

example :
    processObjectCounterWildcards [("d_*", 2)] ["0", "1"] "q" =
      [("d_0", 2), ("d_1", 2), ("d_*", 2)] := by
  decide

example :
    runSimulationStep rng0 0 e2Colony =
      (SimStepResult.finished,
       ⟨"e", 1, {"a", "b", "e"},
        [⟨{"b"}, [[e2Rule]], some (0, [RuleExecOption.first])⟩],
        {"e"}, {"e"}, {"e"}⟩, 0) := by
  decide

example :
    (runSimulationStep rng0 0 vacColony).1 =
      SimStepResult.no_more_executables := by
  decide

theorem choseProgram_obj (se : SelEnv) (rng : Nat → Nat) (pos : Nat)
    (a : Agent) :
    ((choseProgram se rng pos a).1).obj = a.obj ∧
    ((choseProgram se rng pos a).1).programs = a.programs := by
  unfold choseProgram
  rcases possiblePrograms se a with _ | ⟨x, _ | ⟨y, rest⟩⟩ <;> exact ⟨rfl, rfl⟩

theorem selectAgents_objMap (se : SelEnv) (rng : Nat → Nat) :
    ∀ (l : List Agent) (pos : Nat),
      (selectAgents se rng l pos).1.map Agent.obj = l.map Agent.obj ∧
      (selectAgents se rng l pos).1.map Agent.programs =
        l.map Agent.programs := by
  intro l
  induction l with
  | nil => intro pos; exact ⟨rfl, rfl⟩
  | cons a rest ih =>
    intro pos
    have ha := choseProgram_obj se rng pos a
    have hr := ih (choseProgram se rng pos a).2
    simp only [selectAgents, List.map_cons]
    exact ⟨by rw [ha.1, hr.1], by rw [ha.2, hr.2]⟩

/-- C8: Vacuous step performs no mutation: whenever `runSimulationStep`
returns `no_more_executables` (no agent has an applicable program), every
agent's `obj` multiset, the colony environment and the three swarm
environments are exactly as before the step — selection reads but never
mutates these multisets. -/
theorem c8_vacuous_step_no_mutation (rng : Nat → Nat) (pos : Nat)
    (c c' : Colony) (pos' : Nat)
    (h : runSimulationStep rng pos c =
      (SimStepResult.no_more_executables, c', pos')) :
    c'.env = c.env ∧ c'.genv = c.genv ∧ c'.ienv = c.ienv ∧
    c'.oenv = c.oenv ∧ c'.agents.map Agent.obj = c.agents.map Agent.obj := by
  unfold runSimulationStep at h
  by_cases hall :
      (selectAgents (selEnvOf c) rng c.agents pos).1.all
        fun a => a.chosen.isNone
  · simp only [hall, if_true, Prod.mk.injEq] at h
    obtain ⟨-, h2, -⟩ := h
    subst h2
    refine ⟨rfl, rfl, rfl, rfl, ?_⟩
    exact (selectAgents_objMap (selEnvOf c) rng c.agents pos).1
  · simp only [hall, if_false, Bool.false_eq_true] at h
    split at h <;> simp at h

theorem c8_vacuous_step_no_mutation_witness :
    (runSimulationStep rng0 0 vacColony).1 =
      SimStepResult.no_more_executables ∧
    (runSimulationStep rng0 0 vacColony).2.1.env = vacColony.env ∧
    (runSimulationStep rng0 0 vacColony).2.1.agents.map Agent.obj =
      vacColony.agents.map Agent.obj := by
  have h := c8_vacuous_step_no_mutation rng0 0 vacColony
    (runSimulationStep rng0 0 vacColony).2.1
    (runSimulationStep rng0 0 vacColony).2.2
    (by decide)
  exact ⟨by decide, h.1, h.2.2.2.2⟩

theorem commExchange_ecount (e lhs rhs : String)
    (obj target : Multiset String) :
    (commExchange e lhs rhs obj target).2.count e = target.count e := by
  unfold commExchange
  split_ifs with h1 h2 h3
  · rw [Multiset.count_cons_of_ne (Ne.symm h2),
      Multiset.count_erase_of_ne (Ne.symm h1)]
  · rw [Multiset.count_erase_of_ne (Ne.symm h1)]
  · rw [Multiset.count_cons_of_ne (Ne.symm h3)]
  · rfl

theorem execRule_ecount (e : String) (r : Rule) (c : RuleExecOption)
    (s : ESt) :
    ((execRule e r c s).2).env.count e = s.env.count e ∧
    ((execRule e r c s).2).genv.count e = s.genv.count e ∧
    ((execRule e r c s).2).ienv.count e = s.ienv.count e ∧
    ((execRule e r c s).2).oenv.count e = s.oenv.count e := by
  rcases r with ⟨mt, ty, lh, rh, aty, alh, arh⟩
  cases c with
  | none => exact ⟨rfl, rfl, rfl, rfl⟩
  | first =>
    cases ty <;> simp only [execRule] <;> split_ifs <;>
      simp_all [commExchange_ecount]
  | second =>
    cases aty <;> simp only [execRule] <;> split_ifs <;>
      simp_all [commExchange_ecount]

theorem execRules_ecount (e : String) :
    ∀ (l : List (Rule × RuleExecOption)) (s : ESt),
    ((execRules e s l).2).env.count e = s.env.count e ∧
    ((execRules e s l).2).genv.count e = s.genv.count e ∧
    ((execRules e s l).2).ienv.count e = s.ienv.count e ∧
    ((execRules e s l).2).oenv.count e = s.oenv.count e := by
  intro l
  induction l with
  | nil => intro s; exact ⟨rfl, rfl, rfl, rfl⟩
  | cons rc rest ih =>
    intro s
    have h1 := execRule_ecount e rc.1 rc.2 s
    rcases hx : execRule e rc.1 rc.2 s with ⟨b, s1⟩
    rw [hx] at h1
    simp only [execRules, hx]
    cases b
    · exact h1
    · have h2 := ih s1
      exact ⟨h2.1.trans h1.1, h2.2.1.trans h1.2.1,
        h2.2.2.1.trans h1.2.2.1, h2.2.2.2.trans h1.2.2.2⟩

theorem executeProgram_ecount (e : String) (a : Agent)
    (env genv ienv oenv : Multiset String) :
    ((executeProgram e a env genv ienv oenv).2).env.count e = env.count e ∧
    ((executeProgram e a env genv ienv oenv).2).genv.count e = genv.count e ∧
    ((executeProgram e a env genv ienv oenv).2).ienv.count e = ienv.count e ∧
    ((executeProgram e a env genv ienv oenv).2).oenv.count e =
      oenv.count e := by
  unfold executeProgram
  cases a.chosen with
  | none => exact ⟨rfl, rfl, rfl, rfl⟩
  | some ic => exact execRules_ecount e _ _

theorem execAgents_ecount (e : String) :
    ∀ (l : List Agent) (env genv ienv oenv : Multiset String),
    (execAgents e l env genv ienv oenv).env.count e = env.count e ∧
    (execAgents e l env genv ienv oenv).genv.count e = genv.count e ∧
    (execAgents e l env genv ienv oenv).ienv.count e = ienv.count e ∧
    (execAgents e l env genv ienv oenv).oenv.count e = oenv.count e := by
  intro l
  induction l with
  | nil => intro env genv ienv oenv; exact ⟨rfl, rfl, rfl, rfl⟩
  | cons a rest ih =>
    intro env genv ienv oenv
    simp only [execAgents]
    cases a.chosen with
    | none => exact ih env genv ienv oenv
    | some ic =>
      have h1 := executeProgram_ecount e a env genv ienv oenv
      rcases hx : executeProgram e a env genv ienv oenv with ⟨b, s1⟩
      rw [hx] at h1
      simp only [hx]
      cases b
      · simp only [if_false, Bool.false_eq_true]
        exact h1
      · simp only [if_true]
        have h2 := ih s1.env s1.genv s1.ienv s1.oenv
        exact ⟨h2.1.trans h1.1, h2.2.1.trans h1.2.1,
          h2.2.2.1.trans h1.2.2.1, h2.2.2.2.trans h1.2.2.2⟩

theorem runStep_ecount (rng : Nat → Nat) (pos : Nat) (c : Colony)
    (res : SimStepResult) (c' : Colony) (pos' : Nat)
    (h : runSimulationStep rng pos c = (res, c', pos')) :
    c'.env.count c.e = c.env.count c.e ∧
    c'.genv.count c.e = c.genv.count c.e ∧
    c'.ienv.count c.e = c.ienv.count c.e ∧
    c'.oenv.count c.e = c.oenv.count c.e := by
  unfold runSimulationStep at h
  by_cases hall :
      (selectAgents (selEnvOf c) rng c.agents pos).1.all
        fun a => a.chosen.isNone
  · simp only [hall, if_true, Prod.mk.injEq] at h
    obtain ⟨-, h2, -⟩ := h
    subst h2
    exact ⟨rfl, rfl, rfl, rfl⟩
  · simp only [hall, if_false, Bool.false_eq_true] at h
    have hout := execAgents_ecount c.e
      (selectAgents (selEnvOf c) rng c.agents pos).1 c.env c.genv c.ienv
      c.oenv
    split at h <;>
      (simp only [Prod.mk.injEq] at h; obtain ⟨-, h2, -⟩ := h; subst h2;
        exact hout)

/-- C4: Elementary stickiness: across any simulation step the count of the
colony's elementary object in each environment multiset (colony `env` and
the swarm `global_env` / `in_global_env` / `out_global_env`) is never
decremented by rule execution, because execution skips the environment
decrement when `rhs` equals the colony's `e` and skips the environment
increment when `lhs` equals `e`; hence a count of at least 1 before a step
persists after it. -/
theorem c4_elementary_stickiness (rng : Nat → Nat) (pos : Nat) (c : Colony)
    (res : SimStepResult) (c' : Colony) (pos' : Nat)
    (h : runSimulationStep rng pos c = (res, c', pos')) :
    (1 ≤ c.env.count c.e → 1 ≤ c'.env.count c.e) ∧
    (1 ≤ c.genv.count c.e → 1 ≤ c'.genv.count c.e) ∧
    (1 ≤ c.ienv.count c.e → 1 ≤ c'.ienv.count c.e) ∧
    (1 ≤ c.oenv.count c.e → 1 ≤ c'.oenv.count c.e) := by
  have hc := runStep_ecount rng pos c res c' pos' h
  exact ⟨fun h1 => hc.1 ▸ h1, fun h1 => hc.2.1 ▸ h1,
    fun h1 => hc.2.2.1 ▸ h1, fun h1 => hc.2.2.2 ▸ h1⟩

theorem c4_elementary_stickiness_witness :
    1 ≤ (runSimulationStep rng0 0 e2Colony).2.1.env.count "e" := by
  have h := c4_elementary_stickiness rng0 0 e2Colony
    (runSimulationStep rng0 0 e2Colony).1
    (runSimulationStep rng0 0 e2Colony).2.1
    (runSimulationStep rng0 0 e2Colony).2.2 rfl
  exact h.1 (by decide)

theorem card_exchange (lhs rhs : String) (m : Multiset String)
    (hm : lhs ∈ m) : (rhs ::ₘ m.erase lhs).card = m.card := by
  rw [Multiset.card_cons, Multiset.card_erase_of_mem hm]
  exact Nat.succ_pred_eq_of_pos (Multiset.card_pos_iff_exists_mem.mpr ⟨lhs, hm⟩)

theorem execRule_obj_first (e : String) (r : Rule) (s s' : ESt)
    (hty : r.type ≠ RuleType.conditional)
    (hx : execRule e r RuleExecOption.first s = (true, s')) :
    s'.obj = r.rhs ::ₘ s.obj.erase r.lhs ∧ 0 < s.obj.count r.lhs := by
  rcases r with ⟨mt, ty, lh, rh, aty, alh, arh⟩
  cases ty with
  | conditional => exact absurd rfl hty
  | evolution =>
    simp only [execRule] at hx
    split_ifs at hx with h0
    · exact absurd hx (by simp)
    · simp only [Prod.mk.injEq, true_and] at hx
      exact ⟨by rw [← hx], by show 0 < Multiset.count lh s.obj; omega⟩
  | communication =>
    simp only [execRule] at hx
    split_ifs at hx with h0 h1
    · exact absurd hx (by simp)
    · exact absurd hx (by simp)
    · simp only [commExchange, Prod.mk.injEq, true_and] at hx
      exact ⟨by rw [← hx], by show 0 < Multiset.count lh s.obj; omega⟩
  | exteroceptive =>
    simp only [execRule] at hx
    split_ifs at hx with h0 h1
    · exact absurd hx (by simp)
    · exact absurd hx (by simp)
    · simp only [commExchange, Prod.mk.injEq, true_and] at hx
      exact ⟨by rw [← hx], by show 0 < Multiset.count lh s.obj; omega⟩
  | in_exteroceptive =>
    simp only [execRule] at hx
    split_ifs at hx with h0 h1
    · exact absurd hx (by simp)
    · exact absurd hx (by simp)
    · simp only [commExchange, Prod.mk.injEq, true_and] at hx
      exact ⟨by rw [← hx], by show 0 < Multiset.count lh s.obj; omega⟩
  | out_exteroceptive =>
    simp only [execRule] at hx
    split_ifs at hx with h0 h1
    · exact absurd hx (by simp)
    · exact absurd hx (by simp)
    · simp only [commExchange, Prod.mk.injEq, true_and] at hx
      exact ⟨by rw [← hx], by show 0 < Multiset.count lh s.obj; omega⟩

theorem execRule_obj_second (e : String) (r : Rule) (s s' : ESt)
    (hty : r.alt_type ≠ RuleType.conditional)
    (hx : execRule e r RuleExecOption.second s = (true, s')) :
    s'.obj = r.alt_rhs ::ₘ s.obj.erase r.alt_lhs ∧
    0 < s.obj.count r.alt_lhs := by
  rcases r with ⟨mt, ty, lh, rh, aty, alh, arh⟩
  cases aty with
  | conditional => exact absurd rfl hty
  | evolution =>
    simp only [execRule] at hx
    split_ifs at hx with h0
    · exact absurd hx (by simp)
    · simp only [Prod.mk.injEq, true_and] at hx
      exact ⟨by rw [← hx], by show 0 < Multiset.count alh s.obj; omega⟩
  | communication =>
    simp only [execRule] at hx
    split_ifs at hx with h0 h1
    · exact absurd hx (by simp)
    · exact absurd hx (by simp)
    · simp only [commExchange, Prod.mk.injEq, true_and] at hx
      exact ⟨by rw [← hx], by show 0 < Multiset.count alh s.obj; omega⟩
  | exteroceptive =>
    simp only [execRule] at hx
    split_ifs at hx with h0 h1
    · exact absurd hx (by simp)
    · exact absurd hx (by simp)
    · simp only [commExchange, Prod.mk.injEq, true_and] at hx
      exact ⟨by rw [← hx], by show 0 < Multiset.count alh s.obj; omega⟩
  | in_exteroceptive =>
    simp only [execRule] at hx
    split_ifs at hx with h0 h1
    · exact absurd hx (by simp)
    · exact absurd hx (by simp)
    · simp only [commExchange, Prod.mk.injEq, true_and] at hx
      exact ⟨by rw [← hx], by show 0 < Multiset.count alh s.obj; omega⟩
  | out_exteroceptive =>
    simp only [execRule] at hx
    split_ifs at hx with h0 h1
    · exact absurd hx (by simp)
    · exact absurd hx (by simp)
    · simp only [commExchange, Prod.mk.injEq, true_and] at hx
      exact ⟨by rw [← hx], by show 0 < Multiset.count alh s.obj; omega⟩

theorem execRule_card (e : String) (r : Rule) (c : RuleExecOption)
    (s s' : ESt) (hw : WfRule r)
    (hx : execRule e r c s = (true, s')) :
    s'.obj.card = s.obj.card := by
  cases c with
  | none =>
    simp only [execRule, Prod.mk.injEq, true_and] at hx
    rw [← hx]
  | first =>
    obtain ⟨ho, hc⟩ := execRule_obj_first e r s s' hw.1 hx
    rw [ho]
    exact card_exchange _ _ _ (Multiset.count_pos.mp hc)
  | second =>
    obtain ⟨ho, hc⟩ := execRule_obj_second e r s s' hw.2 hx
    rw [ho]
    exact card_exchange _ _ _ (Multiset.count_pos.mp hc)

theorem execRules_card (e : String) :
    ∀ (l : List (Rule × RuleExecOption)) (s : ESt),
    (∀ rc ∈ l, WfRule rc.1) → (execRules e s l).1 = true →
    ((execRules e s l).2).obj.card = s.obj.card := by
  intro l
  induction l with
  | nil => intro s _ _; rfl
  | cons rc rest ih =>
    intro s hw hok
    rcases hx : execRule e rc.1 rc.2 s with ⟨b, s1⟩
    simp only [execRules, hx] at hok ⊢
    cases b
    · simp at hok
    · have h1 := execRule_card e rc.1 rc.2 s s1
        (hw rc (List.mem_cons_self _ _)) hx
      have h2 := ih s1 (fun x hxm => hw x (List.mem_cons_of_mem _ hxm)) hok
      rw [h2, h1]

theorem getD_program_wf (progs : List (List Rule)) (i : Nat)
    (hw : ∀ p ∈ progs, ∀ r ∈ p, WfRule r) :
    ∀ r ∈ progs.getD i [], WfRule r := by
  intro r hr
  rcases hp : progs[i]? with _ | p
  · rw [List.getD_eq_getElem?_getD, hp] at hr
    simp at hr
  · rw [List.getD_eq_getElem?_getD, hp] at hr
    exact hw p (List.getElem?_mem hp) r hr

theorem executeProgram_card (e : String) (a : Agent)
    (env genv ienv oenv : Multiset String)
    (hw : ∀ p ∈ a.programs, ∀ r ∈ p, WfRule r)
    (hok : (executeProgram e a env genv ienv oenv).1 = true) :
    ((executeProgram e a env genv ienv oenv).2).obj.card = a.obj.card := by
  unfold executeProgram at hok ⊢
  cases hch : a.chosen with
  | none => rw [hch] at hok
  | some ic =>
    rw [hch] at hok
    replace hok :
        (execRules e ⟨a.obj, env, genv, ienv, oenv⟩
          ((a.programs.getD ic.1 []).zip ic.2)).1 = true := hok
    show (execRules e ⟨a.obj, env, genv, ienv, oenv⟩
        ((a.programs.getD ic.1 []).zip ic.2)).2.obj.card = a.obj.card
    apply execRules_card e _ _ _ hok
    intro rc hz
    exact getD_program_wf a.programs ic.1 hw rc.1 (List.of_mem_zip hz).1

theorem execAgents_cardMap (e : String) :
    ∀ (l : List Agent) (env genv ienv oenv : Multiset String),
    (∀ a ∈ l, ∀ p ∈ a.programs, ∀ r ∈ p, WfRule r) →
    (execAgents e l env genv ienv oenv).ok = true →
    (execAgents e l env genv ienv oenv).agents.map
        (fun a => a.obj.card) = l.map fun a => a.obj.card := by
  intro l
  induction l with
  | nil => intro env genv ienv oenv _ _; rfl
  | cons a rest ih =>
    intro env genv ienv oenv hw hok
    simp only [execAgents] at hok ⊢
    cases hch : a.chosen with
    | none =>
      rw [hch] at hok
      dsimp only at hok ⊢
      simp only [List.map_cons]
      rw [ih env genv ienv oenv
        (fun x hx => hw x (List.mem_cons_of_mem _ hx)) hok]
    | some ic =>
      rw [hch] at hok
      dsimp only at hok ⊢
      by_cases hb : (executeProgram e a env genv ienv oenv).1 = true
      · rw [if_pos hb] at hok ⊢
        dsimp only at hok ⊢
        have h1 := ih (executeProgram e a env genv ienv oenv).2.env
          (executeProgram e a env genv ienv oenv).2.genv
          (executeProgram e a env genv ienv oenv).2.ienv
          (executeProgram e a env genv ienv oenv).2.oenv
          (fun x hxm => hw x (List.mem_cons_of_mem _ hxm)) hok
        have h2 := executeProgram_card e a env genv ienv oenv
          (hw a (List.mem_cons_self _ _)) hb
        simp only [List.map_cons, List.cons.injEq]
        exact ⟨h2, h1⟩
      · rw [if_neg hb] at hok
        dsimp only at hok
        exact absurd hok (by simp)

theorem map_obj_card (l l' : List Agent)
    (h : l.map Agent.obj = l'.map Agent.obj) :
    l.map (fun a => a.obj.card) = l'.map fun a => a.obj.card := by
  have h1 : (l.map Agent.obj).map Multiset.card =
      (l'.map Agent.obj).map Multiset.card := by rw [h]
  simpa [List.map_map, Function.comp] using h1

theorem selectAgents_wf (rng : Nat → Nat) (pos : Nat) (c : Colony)
    (hwf : WfColony c) :
    ∀ a ∈ (selectAgents (selEnvOf c) rng c.agents pos).1,
      ∀ p ∈ a.programs, ∀ r ∈ p, WfRule r := by
  intro a ha
  have hm : a.programs ∈
      ((selectAgents (selEnvOf c) rng c.agents pos).1).map Agent.programs :=
    List.mem_map_of_mem _ ha
  rw [(selectAgents_objMap (selEnvOf c) rng c.agents pos).2] at hm
  obtain ⟨b, hb, he⟩ := List.mem_map.mp hm
  intro p hp
  exact hwf b hb p (by rw [he]; exact hp)

theorem runStep_cardMap (rng : Nat → Nat) (pos : Nat) (c : Colony)
    (res : SimStepResult) (c' : Colony) (pos' : Nat) (hwf : WfColony c)
    (h : runSimulationStep rng pos c = (res, c', pos'))
    (hres : res ≠ SimStepResult.error) :
    c'.agents.map (fun a => a.obj.card) =
      c.agents.map fun a => a.obj.card := by
  have hsel := selectAgents_objMap (selEnvOf c) rng c.agents pos
  unfold runSimulationStep at h
  by_cases hall :
      (selectAgents (selEnvOf c) rng c.agents pos).1.all
        fun a => a.chosen.isNone
  · simp only [hall, if_true, Prod.mk.injEq] at h
    obtain ⟨-, h2, -⟩ := h
    subst h2
    exact map_obj_card _ _ hsel.1
  · simp only [hall, if_false, Bool.false_eq_true] at h
    split at h
    next hok =>
      simp only [Prod.mk.injEq] at h
      obtain ⟨-, h2, -⟩ := h
      subst h2
      have hm := execAgents_cardMap c.e
        (selectAgents (selEnvOf c) rng c.agents pos).1 c.env c.genv c.ienv
        c.oenv (selectAgents_wf rng pos c hwf) hok
      exact hm.trans (map_obj_card _ _ hsel.1)
    next hok =>
      simp only [Prod.mk.injEq] at h
      exact absurd h.1.symm hres

/-- C3: Capacity conservation: for every (well-formed) colony and every
agent whose `obj` multiset totals the colony capacity `n` before a
simulation step, after any step that completes without an execution error
(`finished` or `no_more_executables`) the agent's `obj` multiset still
totals `n`: every executed rule removes exactly one object from the agent
and puts exactly one back. -/
theorem c3_capacity_conservation (rng : Nat → Nat) (pos : Nat) (c : Colony)
    (res : SimStepResult) (c' : Colony) (pos' : Nat) (hwf : WfColony c)
    (h : runSimulationStep rng pos c = (res, c', pos'))
    (hres : res ≠ SimStepResult.error) :
    ∀ (i : Nat) (a a' : Agent), c.agents[i]? = some a →
      c'.agents[i]? = some a' → a.obj.card = c.n → a'.obj.card = c.n := by
  intro i a a' ha ha' hn
  have hmap := runStep_cardMap rng pos c res c' pos' hwf h hres
  have h1 : (c'.agents.map fun a => a.obj.card)[i]? = some a'.obj.card := by
    rw [List.getElem?_map, ha']; rfl
  rw [hmap, List.getElem?_map, ha] at h1
  simp at h1
  omega

theorem c3_capacity_conservation_witness :
    ((runSimulationStep rng0 0 e1Colony).2.1.agents.getD 0
      ⟨0, [], Option.none⟩).obj.card = e1Colony.n := by
  have h := c3_capacity_conservation rng0 0 e1Colony
    (runSimulationStep rng0 0 e1Colony).1
    (runSimulationStep rng0 0 e1Colony).2.1
    (runSimulationStep rng0 0 e1Colony).2.2
    (by decide) rfl (by decide) 0
    (e1Colony.agents.getD 0 ⟨0, [], Option.none⟩)
    ((runSimulationStep rng0 0 e1Colony).2.1.agents.getD 0
      ⟨0, [], Option.none⟩)
    (by decide) (by decide) (by decide)
  exact h

theorem ruleChoice_some (se : SelEnv) (obj : Multiset String) (r : Rule)
    (c : RuleExecOption) (h : ruleChoice se obj r = some c) :
    c = RuleExecOption.first ∨ c = RuleExecOption.second := by
  unfold ruleChoice at h
  split_ifs at h <;> simp_all

theorem ruleChoice_second (se : SelEnv) (obj : Multiset String) (r : Rule)
    (h : ruleChoice se obj r = some RuleExecOption.second) :
    r.main_type = RuleType.conditional ∧ primCondFails se r ∧
    altCondHolds se r := by
  unfold ruleChoice at h
  split_ifs at h <;> simp_all

theorem kindReq_robj (k : RuleType) (x : String) (q : Req) :
    (kindReq k x q).robj = q.robj := by
  cases k <;> rfl

theorem ruleReq_robj_eq (r : Rule) (c : RuleExecOption) (q : Req)
    (hc : c ≠ RuleExecOption.none) :
    (ruleReq r c q).robj = chosenLhs r c ::ₘ q.robj := by
  cases c with
  | none => exact absurd rfl hc
  | first =>
    unfold ruleReq
    split_ifs <;> rw [kindReq_robj] <;> rfl
  | second =>
    unfold ruleReq
    rw [kindReq_robj]
    exact rfl

theorem ruleReq_robj_count_le (x : String) (r : Rule) (c : RuleExecOption)
    (q : Req) : q.robj.count x ≤ (ruleReq r c q).robj.count x := by
  cases c with
  | none => exact le_refl _
  | first =>
    rw [ruleReq_robj_eq r RuleExecOption.first q (by simp),
      Multiset.count_cons]
    omega
  | second =>
    rw [ruleReq_robj_eq r RuleExecOption.second q (by simp),
      Multiset.count_cons]
    omega

theorem foldReq_robj_count_le (x : String) :
    ∀ (L : List (Rule × RuleExecOption)) (q : Req),
    q.robj.count x ≤
      ((L.foldl (fun q rc => ruleReq rc.1 rc.2 q) q).robj).count x := by
  intro L
  induction L with
  | nil => intro q; exact le_refl _
  | cons rc tl ih =>
    intro q
    exact (ruleReq_robj_count_le x rc.1 rc.2 q).trans (ih (ruleReq rc.1 rc.2 q))

theorem foldReq_mem_robj :
    ∀ (L : List (Rule × RuleExecOption)) (q : Req) (r : Rule)
      (c : RuleExecOption), (r, c) ∈ L → c ≠ RuleExecOption.none →
    0 < ((L.foldl (fun q rc => ruleReq rc.1 rc.2 q) q).robj).count
      (chosenLhs r c) := by
  intro L
  induction L with
  | nil => intro q r c hm _; simp at hm
  | cons hd tl ih =>
    intro q r c hm hc
    rcases List.mem_cons.mp hm with heq | hm2
    · subst heq
      have h1 : 0 < (ruleReq r c q).robj.count (chosenLhs r c) := by
        rw [ruleReq_robj_eq r c q hc, Multiset.count_cons_self]
        omega
      exact lt_of_lt_of_le h1
        (foldReq_robj_count_le (chosenLhs r c) tl (ruleReq r c q))
    · exact ih (ruleReq hd.1 hd.2 q) r c hm2 hc

theorem progChoices_mem (se : SelEnv) (obj : Multiset String) :
    ∀ (l : List Rule) (cs : List RuleExecOption),
    progChoices se obj l = some cs →
    ∀ p ∈ l.zip cs, ruleChoice se obj p.1 = some p.2 := by
  intro l
  induction l with
  | nil => intro cs h p hp; simp at hp
  | cons r rs ih =>
    intro cs h p hp
    rcases hr : ruleChoice se obj r with _ | c
    · simp only [progChoices, hr] at h
      exact Option.noConfusion h
    · rcases hrs : progChoices se obj rs with _ | cs0
      · simp only [progChoices, hr, hrs] at h
        exact Option.noConfusion h
      · simp only [progChoices, hr, hrs, Option.some.injEq] at h
        subst h
        simp only [List.zip_cons_cons, List.mem_cons] at hp
        rcases hp with rfl | hp2
        · exact hr
        · exact ih cs0 hrs p hp2

theorem programExecutable_parts (se : SelEnv) (obj : Multiset String)
    (prog : List Rule) (cs : List RuleExecOption)
    (h : programExecutable se obj prog = some cs) :
    progChoices se obj prog = some cs ∧
    reqSatisfied se obj (progReq (prog.zip cs)) := by
  unfold programExecutable at h
  rcases hp : progChoices se obj prog with _ | cs0
  · rw [hp] at h; simp at h
  · rw [hp] at h
    dsimp only at h
    split_ifs at h with hs
    · simp only [Option.some.injEq] at h
      subst h
      exact ⟨rfl, hs⟩

/-- C2: Conditional-rule branch selection: when a program is applicable
with recorded choices `cs`, every rule marked `second` is a conditional
rule whose first branch failed its kind-specific environment condition,
whose second branch passed its own kind-specific environment condition,
and whose second-branch left-hand side is present in the agent's multiset;
moreover the chosen branch's own left-hand side is always present in the
agent (so a program whose chosen branch's lhs is absent is inapplicable). -/
theorem c2_conditional_branch_selection (se : SelEnv)
    (obj : Multiset String) (prog : List Rule) (cs : List RuleExecOption)
    (h : programExecutable se obj prog = some cs) :
    ∀ r c, (r, c) ∈ prog.zip cs →
      (c = RuleExecOption.first ∨ c = RuleExecOption.second) ∧
      (c = RuleExecOption.second →
        r.main_type = RuleType.conditional ∧ primCondFails se r ∧
        altCondHolds se r ∧ r.alt_lhs ∈ obj) ∧
      chosenLhs r c ∈ obj := by
  obtain ⟨hp, hs⟩ := programExecutable_parts se obj prog cs h
  intro r c hm
  have hrc := progChoices_mem se obj prog cs hp (r, c) hm
  have hcf := ruleChoice_some se obj r c hrc
  have hcne : c ≠ RuleExecOption.none := by
    rcases hcf with rfl | rfl <;> simp
  have hcnt := foldReq_mem_robj (prog.zip cs) emptyReq r c hm hcne
  have hle := hs.1 (chosenLhs r c) (Multiset.count_pos.mp hcnt)
  have hlhs : chosenLhs r c ∈ obj :=
    Multiset.count_pos.mp (lt_of_lt_of_le hcnt hle)
  refine ⟨hcf, ?_, hlhs⟩
  intro hc2
  subst hc2
  obtain ⟨hmt, hpf, hah⟩ := ruleChoice_second se obj r hrc
  exact ⟨hmt, hpf, hah, hlhs⟩

theorem c2_conditional_branch_selection_witness :
    programExecutable ⟨{"e"}, {"e"}, {"e"}, {"e"}⟩ {"a"} [e3Rule] =
      some [RuleExecOption.second] ∧
    primCondFails ⟨{"e"}, {"e"}, {"e"}, {"e"}⟩ e3Rule ∧
    altCondHolds ⟨{"e"}, {"e"}, {"e"}, {"e"}⟩ e3Rule ∧
    e3Rule.alt_lhs ∈ ({"a"} : Multiset String) := by
  have h := c2_conditional_branch_selection ⟨{"e"}, {"e"}, {"e"}, {"e"}⟩
    {"a"} [e3Rule] [RuleExecOption.second] (by decide) e3Rule
    RuleExecOption.second (by simp)
  exact ⟨by decide, (h.2.1 rfl).2.1, (h.2.1 rfl).2.2.1, (h.2.1 rfl).2.2.2⟩

theorem dropE_fits (m env : Multiset String) :
    counterFits (dropE m) env ↔
      ∀ x ∈ m, x ≠ "e" → m.count x ≤ env.count x := by
  unfold counterFits dropE
  constructor
  · intro h x hx hne
    have hmem : x ∈ m.filter fun x => x ≠ "e" :=
      Multiset.mem_filter.mpr ⟨hx, hne⟩
    have h2 := h x hmem
    rwa [Multiset.count_filter, if_pos hne] at h2
  · intro h x hx
    obtain ⟨hxm, hne⟩ := Multiset.mem_filter.mp hx
    rw [Multiset.count_filter, if_pos hne]
    exact h x hxm hne

/-- C5 (amended): in the aggregate feasibility check the literal symbol
`"e"` — not the colony's configurable elementary object — is the one
excluded from every environment availability check: the check passes
exactly when the agent demands fit `obj` and, for every demanded object
other than the literal `"e"`, the demanded count fits the corresponding
environment.  The check takes no colony `e` as input at all. -/
theorem c5_literal_e_excluded_amended (se : SelEnv) (obj : Multiset String)
    (q : Req) :
    reqSatisfied se obj q ↔
      counterFits q.robj obj ∧
      (∀ x ∈ q.renv, x ≠ "e" → q.renv.count x ≤ se.env.count x) ∧
      (∀ x ∈ q.rgenv, x ≠ "e" → q.rgenv.count x ≤ se.genv.count x) ∧
      (∀ x ∈ q.rienv, x ≠ "e" → q.rienv.count x ≤ se.ienv.count x) ∧
      (∀ x ∈ q.roenv, x ≠ "e" → q.roenv.count x ≤ se.oenv.count x) := by
  unfold reqSatisfied
  rw [dropE_fits, dropE_fits, dropE_fits, dropE_fits]

theorem c5_literal_e_excluded_amended_witness :
    reqSatisfied ⟨{"x", "e"}, {"e"}, {"e"}, {"e"}⟩ {"a"}
      ⟨{"a"}, {"x", "e", "e"}, 0, 0, 0⟩ := by
  exact (c5_literal_e_excluded_amended ⟨{"x", "e"}, {"e"}, {"e"}, {"e"}⟩
    {"a"} ⟨{"a"}, {"x", "e", "e"}, 0, 0, 0⟩).mpr (by decide)

theorem c5_configurable_e_counterexample :
    programExecutable ⟨{"x", "e"}, {"e"}, {"e"}, {"e"}⟩ {"a", "b"}
      [xCommRule1, xCommRule2] = Option.none ∧
    programExecutable ⟨{"x", "x", "e"}, {"e"}, {"e"}, {"e"}⟩ {"a", "b"}
      [xCommRule1, xCommRule2] =
      some [RuleExecOption.first, RuleExecOption.first] := by
  decide

/-- C6: the counter variant of wildcard expansion keeps the original
wildcarded item: `processObjectCounterWildcards` on a counter containing
`d_*` (count 2) with suffixes `0`, `1` produces the two substituted items
but also stores `d_*` itself back (the `else` of the `%id` test runs for
every item without `%id`, including `*` items), contradicting the
function's own docstring, which shows `d_*` removed from the result. -/
theorem c6_counter_wildcard_keeps_original :
    processObjectCounterWildcards [("d_*", 2)] ["0", "1"] "q" =
      [("d_0", 2), ("d_1", 2), ("d_*", 2)] ∧
    ("d_*", 2) ∈ processObjectCounterWildcards [("d_*", 2)] ["0", "1"] "q" := by
  decide

theorem simulateAux_hits_limit (step : Nat → SimStepResult) (m : Nat)
    (hall : ∀ k, step k = SimStepResult.finished) (hm : 0 < m) :
    ∀ (j cs fuel : Nat), cs + j = m → j < fuel →
      simulateAux step (m : Int) fuel cs = some (false, m + 1) := by
  intro j
  induction j with
  | zero =>
    intro cs fuel hcs hf
    obtain ⟨f, rfl⟩ : ∃ f, fuel = f + 1 := ⟨fuel - 1, by omega⟩
    simp only [simulateAux, hall cs]
    rw [if_neg (by decide), if_neg (by decide), if_pos (by omega)]
    have hcm : cs = m := by omega
    rw [hcm]
  | succ j ih =>
    intro cs fuel hcs hf
    obtain ⟨f, rfl⟩ : ∃ f, fuel = f + 1 := ⟨fuel - 1, by omega⟩
    simp only [simulateAux, hall cs]
    rw [if_neg (by decide), if_neg (by decide), if_neg (by intro hcon; omega)]
    exact ih (cs + 1) f (by omega) (by omega)

/-- C7 (amended): with `max_steps = m > 0`, a step stream that never
returns `no_more_executables` or `error` makes the driver report the step
limit and return failure after calling `runSimulationStep` exactly `m + 1`
times (not at most `m`): the loop's limit test compares `current_step`
before its increment, so one extra step is run beyond the limit.  The
second component of the result counts the `runSimulationStep` calls. -/
theorem c7_step_limit_amended (step : Nat → SimStepResult) (m : Nat)
    (hm : 0 < m) (hall : ∀ k, step k = SimStepResult.finished)
    (fuel : Nat) (hf : m < fuel) :
    simulateAux step (m : Int) fuel 0 = some (false, m + 1) :=
  simulateAux_hits_limit step m hall hm m 0 fuel (by omega) hf

theorem c7_step_limit_amended_witness :
    simulateAux (fun _ => SimStepResult.finished) (3 : Int) 5 0 =
      some (false, 4) :=
  c7_step_limit_amended (fun _ => SimStepResult.finished) 3 (by decide)
    (fun _ => rfl) 5 (by decide)

theorem c7_step_limit_counterexample :
    simulateAux (fun _ => SimStepResult.finished) (1 : Int) 2 0 =
      some (false, 2) ∧ ¬(2 ≤ 1) := by
  exact ⟨rfl, by omega⟩

/-- C9: Determinism under a fixed seed: two runs from the identical start
state that draw from the identical RNG stream coincide at every step; the
program choices are part of the state (each agent's `chosen` field), so
equal trajectories make identical choices at every agent and step. -/
theorem c9_fixed_seed_determinism (rng : Nat → Nat) (start : Colony × Nat)
    (t1 t2 : Nat → Colony × Nat) (h1 : IsTrajectory rng start t1)
    (h2 : IsTrajectory rng start t2) : ∀ k, t1 k = t2 k := by
  intro k
  induction k with
  | zero => rw [h1.1, h2.1]
  | succ k ih => rw [h1.2 k, h2.2 k, ih]

theorem c9_fixed_seed_determinism_witness :
    IsTrajectory rng0 (e2Colony, 0) (trajFrom rng0 (e2Colony, 0)) ∧
    trajFrom rng0 (e2Colony, 0) 2 = trajFrom rng0 (e2Colony, 0) 2 := by
  have htraj : IsTrajectory rng0 (e2Colony, 0)
      (trajFrom rng0 (e2Colony, 0)) := ⟨rfl, fun _ => rfl⟩
  exact ⟨htraj,
    c9_fixed_seed_determinism rng0 (e2Colony, 0) _ _ htraj htraj 2⟩

/-- C10: Execution faults are not atomic: once a prefix of the chosen
program has executed successfully, the remainder runs from the mutated
state — so when a later rule fails, `executeProgram` returns `false`
together with the state in which the earlier rules' decrements and
increments of the agent multiset and of the environments persist; nothing
is rolled back to the pre-step value. -/
theorem c10_execution_fault_persistence (e : String) :
    ∀ (pre rest : List (Rule × RuleExecOption)) (s : ESt),
    (execRules e s pre).1 = true →
    execRules e s (pre ++ rest) =
      execRules e (execRules e s pre).2 rest := by
  intro pre
  induction pre with
  | nil => intro rest s _; rfl
  | cons rc tl ih =>
    intro rest s hok
    rcases hx : execRule e rc.1 rc.2 s with ⟨b, s1⟩
    simp only [execRules, hx, List.cons_append] at hok ⊢
    cases b
    · simp at hok
    · exact ih rest s1 hok

theorem c10_execution_fault_persistence_witness :
    (execRules "e" c10St [(evolAB, RuleExecOption.first)]).1 = true ∧
    execRules "e" c10St
        ([(evolAB, RuleExecOption.first)] ++
          [(evolZW, RuleExecOption.first)]) =
      execRules "e" (execRules "e" c10St
        [(evolAB, RuleExecOption.first)]).2
        [(evolZW, RuleExecOption.first)] ∧
    (execRules "e" c10St
        ([(evolAB, RuleExecOption.first)] ++
          [(evolZW, RuleExecOption.first)])).1 = false ∧
    (execRules "e" c10St
        ([(evolAB, RuleExecOption.first)] ++
          [(evolZW, RuleExecOption.first)])).2 ≠ c10St := by
  refine ⟨by decide, ?_, by decide, by decide⟩
  exact c10_execution_fault_persistence "e"
    [(evolAB, RuleExecOption.first)] [(evolZW, RuleExecOption.first)]
    c10St (by decide)

theorem count_exchange (lhs rhs : String) (m : Multiset String)
    (hne : lhs ≠ rhs) (hpos : 0 < m.count lhs) :
    (rhs ::ₘ m.erase lhs).count rhs = m.count rhs + 1 ∧
    (rhs ::ₘ m.erase lhs).count lhs + 1 = m.count lhs := by
  constructor
  · rw [Multiset.count_cons_self, Multiset.count_erase_of_ne (Ne.symm hne)]
  · rw [Multiset.count_cons_of_ne hne, Multiset.count_erase_self]
    omega

theorem commExchange_target_counts (e lhs rhs : String)
    (obj target : Multiset String) (hne : lhs ≠ rhs)
    (hpos : 0 < target.count rhs) :
    (rhs ≠ e →
      (commExchange e lhs rhs obj target).2.count rhs + 1 =
        target.count rhs) ∧
    (rhs = e →
      (commExchange e lhs rhs obj target).2.count rhs = target.count rhs) ∧
    (lhs ≠ e →
      (commExchange e lhs rhs obj target).2.count lhs =
        target.count lhs + 1) ∧
    (lhs = e →
      (commExchange e lhs rhs obj target).2.count lhs =
        target.count lhs) := by
  unfold commExchange
  split_ifs with h1 h2 h3
  · refine ⟨fun _ => ?_, fun hre => absurd hre h1, fun _ => ?_,
      fun hle => absurd hle h2⟩
    · rw [Multiset.count_cons_of_ne (Ne.symm hne),
        Multiset.count_erase_self]
      omega
    · rw [Multiset.count_cons_self, Multiset.count_erase_of_ne hne]
  · refine ⟨fun _ => ?_, fun hre => absurd hre h1,
      fun hle => absurd hle h2, fun _ => ?_⟩
    · rw [Multiset.count_erase_self]
      omega
    · rw [Multiset.count_erase_of_ne hne]
  · refine ⟨fun hre => absurd hre h1, fun _ => ?_, fun _ => ?_,
      fun hle => absurd hle h3⟩
    · rw [Multiset.count_cons_of_ne (Ne.symm hne)]
    · rw [Multiset.count_cons_self]
  · exact ⟨fun hre => absurd hre h1, fun _ => rfl,
      fun hle => absurd hle h3, fun _ => rfl⟩

theorem execRule_env_first (e : String) (r : Rule) (s s' : ESt)
    (hk : commLike r.type)
    (hx : execRule e r RuleExecOption.first s = (true, s')) :
    targetEnv r.type s' =
      (commExchange e r.lhs r.rhs (s.obj.erase r.lhs)
        (targetEnv r.type s)).2 ∧
    0 < (targetEnv r.type s).count r.rhs := by
  rcases r with ⟨mt, ty, lh, rh, aty, alh, arh⟩
  dsimp only at hk hx ⊢
  rcases hk with hk | hk | hk | hk <;> subst hk <;>
    simp only [execRule] at hx <;> split_ifs at hx with h0 h1 <;>
    simp only [Prod.mk.injEq, eq_self_iff_true, true_and,
      Bool.false_eq_true, false_and] at hx <;>
    (subst hx;
     refine ⟨by simp only [targetEnv], by simp only [targetEnv]; omega⟩)

theorem execRule_env_second (e : String) (r : Rule) (s s' : ESt)
    (hk : commLike r.alt_type)
    (hx : execRule e r RuleExecOption.second s = (true, s')) :
    targetEnv r.alt_type s' =
      (commExchange e r.alt_lhs r.alt_rhs (s.obj.erase r.alt_lhs)
        (targetEnv r.alt_type s)).2 ∧
    0 < (targetEnv r.alt_type s).count r.alt_rhs := by
  rcases r with ⟨mt, ty, lh, rh, aty, alh, arh⟩
  dsimp only at hk hx ⊢
  rcases hk with hk | hk | hk | hk <;> subst hk <;>
    simp only [execRule] at hx <;> split_ifs at hx with h0 h1 <;>
    simp only [Prod.mk.injEq, eq_self_iff_true, true_and,
      Bool.false_eq_true, false_and] at hx <;>
    (subst hx;
     refine ⟨by simp only [targetEnv], by simp only [targetEnv]; omega⟩)

theorem commLike_ne_conditional (k : RuleType) (hk : commLike k) :
    k ≠ RuleType.conditional := by
  rcases hk with rfl | rfl | rfl | rfl <;> simp

/-- C1 (amended): every successfully executed communication-like rule
(communication, exteroceptive, in- or out-exteroceptive, on either branch
of a conditional, with distinct branch lhs/rhs) leaves the agent with
exactly one more `rhs` and one fewer `lhs`, and the targeted environment
with one fewer `rhs` and one more `lhs`, where the environment decrement
is skipped when `rhs` equals the colony's elementary `e` and the
environment increment is skipped when `lhs` equals `e`.  For the E2 input
(n = 1, env `(b,b,e)`, agent obj `{a}`, program `< a <-> b >`) one step
gives agent obj `{b}` and env `{b:1, a:1, e:1}` — the environment also
receives the communicated `a`. -/
theorem c1_comm_exchange_amended :
    (∀ (e : String) (r : Rule) (c : RuleExecOption) (s s' : ESt),
      (c = RuleExecOption.first ∨ c = RuleExecOption.second) →
      commLike (branchKind r c) →
      chosenLhs r c ≠ branchRhs r c →
      execRule e r c s = (true, s') →
      s'.obj.count (branchRhs r c) = s.obj.count (branchRhs r c) + 1 ∧
      s'.obj.count (chosenLhs r c) + 1 = s.obj.count (chosenLhs r c) ∧
      (branchRhs r c ≠ e →
        (targetEnv (branchKind r c) s').count (branchRhs r c) + 1 =
          (targetEnv (branchKind r c) s).count (branchRhs r c)) ∧
      (branchRhs r c = e →
        (targetEnv (branchKind r c) s').count (branchRhs r c) =
          (targetEnv (branchKind r c) s).count (branchRhs r c)) ∧
      (chosenLhs r c ≠ e →
        (targetEnv (branchKind r c) s').count (chosenLhs r c) =
          (targetEnv (branchKind r c) s).count (chosenLhs r c) + 1) ∧
      (chosenLhs r c = e →
        (targetEnv (branchKind r c) s').count (chosenLhs r c) =
          (targetEnv (branchKind r c) s).count (chosenLhs r c))) ∧
    (runSimulationStep rng0 0 e2Colony =
        (SimStepResult.finished, e2After, 0) ∧
      e2After.agents.map Agent.obj = [{"b"}] ∧
      e2After.env = {"b", "a", "e"}) := by
  constructor
  · intro e r c s s' hc hk hne hx
    rcases hc with rfl | rfl
    · have hkne := commLike_ne_conditional _ hk
      have hobj := execRule_obj_first e r s s' hkne hx
      have henv := execRule_env_first e r s s' hk hx
      have hoc := count_exchange r.lhs r.rhs s.obj hne hobj.2
      have htc := commExchange_target_counts e r.lhs r.rhs
        (s.obj.erase r.lhs) (targetEnv r.type s) hne henv.2
      simp only [branchKind, chosenLhs, branchRhs]
      refine ⟨?_, ?_, ?_, ?_, ?_, ?_⟩
      · rw [hobj.1]; exact hoc.1
      · rw [hobj.1]; exact hoc.2
      · intro h; rw [henv.1]; exact htc.1 h
      · intro h; rw [henv.1]; exact htc.2.1 h
      · intro h; rw [henv.1]; exact htc.2.2.1 h
      · intro h; rw [henv.1]; exact htc.2.2.2 h
    · have hkne := commLike_ne_conditional _ hk
      have hobj := execRule_obj_second e r s s' hkne hx
      have henv := execRule_env_second e r s s' hk hx
      have hoc := count_exchange r.alt_lhs r.alt_rhs s.obj hne hobj.2
      have htc := commExchange_target_counts e r.alt_lhs r.alt_rhs
        (s.obj.erase r.alt_lhs) (targetEnv r.alt_type s) hne henv.2
      simp only [branchKind, chosenLhs, branchRhs]
      refine ⟨?_, ?_, ?_, ?_, ?_, ?_⟩
      · rw [hobj.1]; exact hoc.1
      · rw [hobj.1]; exact hoc.2
      · intro h; rw [henv.1]; exact htc.1 h
      · intro h; rw [henv.1]; exact htc.2.1 h
      · intro h; rw [henv.1]; exact htc.2.2.1 h
      · intro h; rw [henv.1]; exact htc.2.2.2 h
  · exact ⟨by decide, by decide, by decide⟩

theorem c1_comm_exchange_amended_witness :
    e2StAfter.obj.count "b" = e2St.obj.count "b" + 1 ∧
    e2StAfter.obj.count "a" + 1 = e2St.obj.count "a" ∧
    e2StAfter.env.count "b" + 1 = e2St.env.count "b" ∧
    e2StAfter.env.count "a" = e2St.env.count "a" + 1 := by
  have h := c1_comm_exchange_amended.1 "e" e2Rule RuleExecOption.first
    e2St e2StAfter (Or.inl rfl) (Or.inl rfl) (by decide) (by decide)
  exact ⟨h.1, h.2.1, h.2.2.1 (by decide), h.2.2.2.2.1 (by decide)⟩

theorem c1_e2_env_counterexample :
    (runSimulationStep rng0 0 e2Colony).2.1.agents.map Agent.obj =
      [{"b"}] ∧
    (runSimulationStep rng0 0 e2Colony).2.1.env = {"b", "a", "e"} ∧
    (runSimulationStep rng0 0 e2Colony).2.1.env ≠ {"b", "e"} := by
  decide
